import Mathlib

/-!
Verification of the ScoutOps retrieval-and-answering core against its
specification.  The data model follows the repository's declared interfaces
(frontend `types/rag.ts`, `api/assistant.ts`, the README's database schema and
RAG architecture notes); operations whose backend implementation is not part of
the snapshot are modelled from the specification and marked as such in their
doc comments.
-/

namespace ScoutOps

/-- Note identifiers are integer primary keys (README: Notes table, `id`). -/
abbrev NoteId := Nat

/-- Per-note display metadata looked up from the store when a snippet is built
(player id and name, title, bounded-length excerpt of the content, game date,
tags). -/
structure NoteMeta where
  player_id : Nat
  player_name : String
  title : String
  excerpt : String
  game_date : Option String
  tags : Option String
deriving DecidableEq

/-- Evidence snippet returned by hybrid retrieval.  Fields follow the
`NoteSnippet` interface declared in the frontend RAG types. -/
structure NoteSnippet where
  note_id : NoteId
  player_id : Nat
  player_name : String
  title : String
  excerpt : String
  relevance_score : ℚ
  keyword_score : ℚ
  semantic_score : ℚ
  game_date : Option String
  tags : Option String
deriving DecidableEq

/-- Scan a list keeping the first occurrence of every element not yet seen. -/
def dedupFirstAux (seen : List Nat) : List Nat → List Nat
  | [] => []
  | b :: l => if b ∈ seen then dedupFirstAux seen l else b :: dedupFirstAux (b :: seen) l

/-- Keep the first occurrence of every element of a list, dropping all later
duplicates. -/
def dedupFirst (l : List Nat) : List Nat := dedupFirstAux [] l

theorem mem_dedupFirstAux (l : List Nat) (seen : List Nat) (a : Nat) :
    a ∈ dedupFirstAux seen l ↔ a ∈ l ∧ a ∉ seen := by
  induction l generalizing seen with
  | nil => simp [dedupFirstAux]
  | cons b l ih =>
    by_cases hb : b ∈ seen
    · simp only [dedupFirstAux, if_pos hb, ih, List.mem_cons]
      constructor
      · rintro ⟨h1, h2⟩
        exact ⟨Or.inr h1, h2⟩
      · rintro ⟨h1 | h1, h2⟩
        · exact absurd (h1 ▸ hb) h2
        · exact ⟨h1, h2⟩
    · simp only [dedupFirstAux, if_neg hb, List.mem_cons, ih]
      by_cases hab : a = b
      · subst hab
        simp [hb]
      · simp [hab]

theorem mem_dedupFirst (l : List Nat) (a : Nat) : a ∈ dedupFirst l ↔ a ∈ l := by
  simp [dedupFirst, mem_dedupFirstAux]

theorem nodup_dedupFirstAux (l : List Nat) (seen : List Nat) :
    (dedupFirstAux seen l).Nodup := by
  induction l generalizing seen with
  | nil => simp [dedupFirstAux]
  | cons b l ih =>
    by_cases hb : b ∈ seen
    · simpa [dedupFirstAux, if_pos hb] using ih seen
    · simp only [dedupFirstAux, if_neg hb, List.nodup_cons]
      refine ⟨fun hmem => ?_, ih _⟩
      have := (mem_dedupFirstAux _ _ _).mp hmem
      simp at this

theorem nodup_dedupFirst (l : List Nat) : (dedupFirst l).Nodup :=
  nodup_dedupFirstAux l []

theorem indexOf_filter_lt {p : Nat → Bool} {l : List Nat} {x y : Nat}
    (hx : x ∈ l.filter p) (hy : y ∈ l.filter p)
    (h : (l.filter p).indexOf x < (l.filter p).indexOf y) :
    l.indexOf x < l.indexOf y := by
  induction l with
  | nil => simp at hx
  | cons c t ih =>
    by_cases hpc : p c = true
    · rw [List.filter_cons_of_pos hpc] at hx hy h
      by_cases hxc : x = c
      · subst hxc
        have hyx : y ≠ x := by
          intro hcontra
          subst hcontra
          exact lt_irrefl _ h
        rw [List.indexOf_cons_self]
        rw [List.indexOf_cons_ne _ (by simpa using Ne.symm hyx)]
        exact Nat.succ_pos _
      · by_cases hyc : y = c
        · exfalso
          subst hyc
          rw [List.indexOf_cons_self, List.indexOf_cons_ne _ (by simpa using Ne.symm hxc)] at h
          omega
        · rw [List.indexOf_cons_ne _ (by simpa using Ne.symm hxc),
            List.indexOf_cons_ne _ (by simpa using Ne.symm hyc)] at h ⊢
          have hx' : x ∈ t.filter p := by
            rcases List.mem_cons.mp hx with h1 | h1
            · exact absurd h1 hxc
            · exact h1
          have hy' : y ∈ t.filter p := by
            rcases List.mem_cons.mp hy with h1 | h1
            · exact absurd h1 hyc
            · exact h1
          exact Nat.succ_lt_succ (ih hx' hy' (Nat.lt_of_succ_lt_succ h))
    · rw [List.filter_cons_of_neg (by simpa using hpc)] at hx hy h
      have hxc : x ≠ c := fun hcontra => hpc (hcontra ▸ List.of_mem_filter hx)
      have hyc : y ≠ c := fun hcontra => hpc (hcontra ▸ List.of_mem_filter hy)
      rw [List.indexOf_cons_ne _ (by simpa using Ne.symm hxc),
        List.indexOf_cons_ne _ (by simpa using Ne.symm hyc)]
      exact Nat.succ_lt_succ (ih hx hy h)

theorem pairwise_indexOf_dedupFirstAux (l : List Nat) (seen : List Nat) :
    (dedupFirstAux seen l).Pairwise fun a b => l.indexOf a < l.indexOf b := by
  induction l generalizing seen with
  | nil => simp [dedupFirstAux]
  | cons b l ih =>
    by_cases hb : b ∈ seen
    · rw [dedupFirstAux, if_pos hb]
      refine (ih seen).imp_of_mem ?_
      intro x y hx hy h
      have hxs := (mem_dedupFirstAux _ _ _).mp hx
      have hys := (mem_dedupFirstAux _ _ _).mp hy
      have hxb : x ≠ b := fun hc => hxs.2 (hc ▸ hb)
      have hyb : y ≠ b := fun hc => hys.2 (hc ▸ hb)
      rw [List.indexOf_cons_ne _ (by simpa using Ne.symm hxb),
        List.indexOf_cons_ne _ (by simpa using Ne.symm hyb)]
      exact Nat.succ_lt_succ h
    · rw [dedupFirstAux, if_neg hb, List.pairwise_cons]
      constructor
      · intro y hy
        have hys := (mem_dedupFirstAux _ _ _).mp hy
        have hyb : y ≠ b := fun hc => hys.2 (by simp [hc])
        rw [List.indexOf_cons_self, List.indexOf_cons_ne _ (by simpa using Ne.symm hyb)]
        exact Nat.succ_pos _
      · refine (ih (b :: seen)).imp_of_mem ?_
        intro x y hx hy h
        have hxs := (mem_dedupFirstAux _ _ _).mp hx
        have hys := (mem_dedupFirstAux _ _ _).mp hy
        have hxb : x ≠ b := fun hc => hxs.2 (by simp [hc])
        have hyb : y ≠ b := fun hc => hys.2 (by simp [hc])
        rw [List.indexOf_cons_ne _ (by simpa using Ne.symm hxb),
          List.indexOf_cons_ne _ (by simpa using Ne.symm hyb)]
        exact Nat.succ_lt_succ h

theorem pairwise_indexOf_dedupFirst (l : List Nat) :
    (dedupFirst l).Pairwise fun a b => l.indexOf a < l.indexOf b :=
  pairwise_indexOf_dedupFirstAux l []

/-- Score of a note inside one index's ranked `(note_id, score)` result list;
`0` when the note is absent from that list. -/
def scoreOf (results : List (NoteId × ℚ)) (id : NoteId) : ℚ :=
  match results.find? fun p => decide (p.1 = id) with
  | some p => p.2
  | none => 0

/-- Cosine similarity lies in `[-1, 1]`; negative scores clamp to `0`. -/
def clampScore (s : ℚ) : ℚ := if s < 0 then 0 else s

/-- Modelled from the spec: the hybrid retriever's score merge (the backend
`app/rag` retrieval code is absent from the snapshot; README §"Hybrid
Retrieval" and spec §4.1).  Every note appearing in either result set gets
`relevance = keyword_weight * keyword_score + semantic_weight * semantic_score`,
with `0` substituted for the side the note is missing from. -/
def mergeResults (meta : NoteId → NoteMeta) (kwRes vecRes : List (NoteId × ℚ))
    (kw sw : ℚ) : List NoteSnippet :=
  (dedupFirst (kwRes.map Prod.fst ++ vecRes.map Prod.fst)).map fun id =>
    let ks := scoreOf kwRes id
    let ss := clampScore (scoreOf vecRes id)
    let m := meta id
    { note_id := id, player_id := m.player_id, player_name := m.player_name,
      title := m.title, excerpt := m.excerpt,
      relevance_score := kw * ks + sw * ss,
      keyword_score := ks, semantic_score := ss,
      game_date := m.game_date, tags := m.tags }

/-- Ranking order of snippets: descending combined relevance, ties broken by
descending semantic score, then by ascending note identifier. -/
def SnippetLE (a b : NoteSnippet) : Prop :=
  b.relevance_score < a.relevance_score ∨
    (b.relevance_score = a.relevance_score ∧ b.semantic_score < a.semantic_score) ∨
      (b.relevance_score = a.relevance_score ∧ b.semantic_score = a.semantic_score ∧
        a.note_id ≤ b.note_id)

instance : DecidableRel SnippetLE := fun a b => by
  unfold SnippetLE
  infer_instance

instance : IsTotal NoteSnippet SnippetLE := by
  constructor
  intro a b
  unfold SnippetLE
  rcases lt_trichotomy a.relevance_score b.relevance_score with h | h | h
  · exact Or.inr (Or.inl h)
  · rcases lt_trichotomy a.semantic_score b.semantic_score with h2 | h2 | h2
    · exact Or.inr (Or.inr (Or.inl ⟨h, h2⟩))
    · rcases Nat.le_total a.note_id b.note_id with h3 | h3
      · exact Or.inl (Or.inr (Or.inr ⟨h.symm, h2.symm, h3⟩))
      · exact Or.inr (Or.inr (Or.inr ⟨h, h2, h3⟩))
    · exact Or.inl (Or.inr (Or.inl ⟨h.symm, h2⟩))
  · exact Or.inl (Or.inl h)

instance : IsTrans NoteSnippet SnippetLE := by
  constructor
  intro a b c hab hbc
  unfold SnippetLE at *
  rcases hab with h1 | ⟨h1, h1'⟩ | ⟨h1, h1', h1''⟩ <;>
    rcases hbc with h2 | ⟨h2, h2'⟩ | ⟨h2, h2', h2''⟩
  · exact Or.inl (h2.trans h1)
  · exact Or.inl (h2 ▸ h1)
  · exact Or.inl (h2 ▸ h1)
  · exact Or.inl (h1 ▸ h2)
  · exact Or.inr (Or.inl ⟨h2.trans h1, h2'.trans h1'⟩)
  · exact Or.inr (Or.inl ⟨h2.trans h1, h2' ▸ h1'⟩)
  · exact Or.inl (h1 ▸ h2)
  · exact Or.inr (Or.inl ⟨h2.trans h1, h1' ▸ h2'⟩)
  · exact Or.inr (Or.inr ⟨h2.trans h1, h2'.trans h1', h1''.trans h2''⟩)

/-- Default `top_k` for retrieval (spec §4.1: default 5). -/
def defaultTopK : Nat := 5

/-- Modelled from the spec: request validation for `top_k`, which must be at
least 1. -/
def topKValid (k : Nat) : Bool := decide (1 ≤ k)

/-- Modelled from the spec: the hybrid retrieval core over the two indexes'
ranked result lists — merge, rank, truncate to `top_k` (spec §4.1; the backend
implementation is absent from the snapshot). -/
def retrieve (meta : NoteId → NoteMeta) (kwRes vecRes : List (NoteId × ℚ))
    (kw sw : ℚ) (k : Nat) : List NoteSnippet :=
  (List.insertionSort SnippetLE (mergeResults meta kwRes vecRes kw sw)).take k

/-- Availability of one index's query result: the ranked list, or unreachable. -/
inductive IndexStatus (α : Type) where
  | ok (results : α)
  | unreachable
deriving DecidableEq

/-- Response shape of `POST /api/rag/retrieve`, as declared by the frontend
`RetrievalResponse` interface: query, results, total_results — and nothing
else. -/
structure RetrievalResponse where
  query : String
  results : List NoteSnippet
  total_results : Nat
deriving DecidableEq

/-- Retrieval error raised when no index can serve the query. -/
inductive RetrievalError where
  | bothIndexesUnreachable
deriving DecidableEq

/-- Modelled from the spec: availability handling of `retrieve` (spec §4.1) —
fail only when both indexes are unreachable; with a single index unreachable,
degrade to the other index's scores alone.  The response shape is the declared
`RetrievalResponse`. -/
def retrieveWithAvailability (meta : NoteId → NoteMeta) (query : String)
    (kwSide vecSide : IndexStatus (List (NoteId × ℚ))) (kw sw : ℚ) (k : Nat) :
    Except RetrievalError RetrievalResponse :=
  match kwSide, vecSide with
  | .unreachable, .unreachable => .error .bothIndexesUnreachable
  | .ok ks, .unreachable =>
    let r := retrieve meta ks [] kw sw k
    .ok { query := query, results := r, total_results := r.length }
  | .unreachable, .ok vs =>
    let r := retrieve meta [] vs kw sw k
    .ok { query := query, results := r, total_results := r.length }
  | .ok ks, .ok vs =>
    let r := retrieve meta ks vs kw sw k
    .ok { query := query, results := r, total_results := r.length }

/-- Exactly one of the two indexes is unreachable: the degraded mode. -/
def degradedMode (kwSide vecSide : IndexStatus (List (NoteId × ℚ))) : Bool :=
  match kwSide, vecSide with
  | .ok _, .unreachable => true
  | .unreachable, .ok _ => true
  | _, _ => false

theorem scoreOf_not_mem {results : List (NoteId × ℚ)} {id : NoteId}
    (h : id ∉ results.map Prod.fst) : scoreOf results id = 0 := by
  unfold scoreOf
  cases hfind : results.find? fun p => decide (p.1 = id) with
  | none => rfl
  | some p =>
    exfalso
    have hp := List.find?_some hfind
    have hmem := List.mem_of_find?_eq_some hfind
    simp only [decide_eq_true_eq] at hp
    exact h (List.mem_map.mpr ⟨p, hmem, hp⟩)

/-- C1: for every query inputs, `retrieve` returns at most `top_k` snippets,
sorted by non-increasing combined relevance with ties broken by descending
semantic score then ascending note identifier; `top_k` defaults to 5 and the
request validation accepts exactly the values that are at least 1. -/
theorem retrieve_sorted_bounded (meta : NoteId → NoteMeta)
    (kwRes vecRes : List (NoteId × ℚ)) (kw sw : ℚ) (k : Nat) :
    (retrieve meta kwRes vecRes kw sw k).length ≤ k ∧
    (retrieve meta kwRes vecRes kw sw k).Sorted SnippetLE ∧
    (retrieve meta kwRes vecRes kw sw k).Sorted
      (fun a b => b.relevance_score ≤ a.relevance_score) ∧
    defaultTopK = 5 ∧ (topKValid k = true ↔ 1 ≤ k) := by
  have hsorted : (retrieve meta kwRes vecRes kw sw k).Sorted SnippetLE :=
    List.Pairwise.sublist (List.take_sublist _ _)
      (List.sorted_insertionSort SnippetLE (mergeResults meta kwRes vecRes kw sw))
  refine ⟨?_, hsorted, ?_, rfl, by simp [topKValid]⟩
  · simp [retrieve, List.length_take_le]
  · refine hsorted.imp ?_
    intro a b hab
    rcases hab with h | ⟨h, _⟩ | ⟨h, _, _⟩
    · exact le_of_lt h
    · exact le_of_eq h
    · exact le_of_eq h

theorem retrieve_sorted_bounded_witness :
    (retrieve (fun _ => ⟨0, "", "", "", none, none⟩)
      [(1, (8:ℚ)/10)] [(2, (9:ℚ)/10)] ((4:ℚ)/10) ((6:ℚ)/10) 5).length ≤ 5 ∧
    (topKValid 5 = true ↔ 1 ≤ 5) :=
  ⟨(retrieve_sorted_bounded (fun _ => ⟨0, "", "", "", none, none⟩)
      [(1, (8:ℚ)/10)] [(2, (9:ℚ)/10)] ((4:ℚ)/10) ((6:ℚ)/10) 5).1,
    (retrieve_sorted_bounded (fun _ => ⟨0, "", "", "", none, none⟩)
      [(1, (8:ℚ)/10)] [(2, (9:ℚ)/10)] ((4:ℚ)/10) ((6:ℚ)/10) 5).2.2.2.2⟩

/-- C6: for every note appearing in either result set, the combined relevance
equals `keyword_weight * keyword_score + semantic_weight * semantic_score` with
0 substituted for a missing side; and in Scenario B (weights 0.4/0.6, note 1 in
keyword results only with score 0.8, note 2 in vector results only with score
0.9) the combined scores are 0.32 and 0.54 and the ranking places note 2 first. -/
theorem combined_relevance_formula :
    (∀ (meta : NoteId → NoteMeta) (kwRes vecRes : List (NoteId × ℚ)) (kw sw : ℚ),
      ∀ s ∈ mergeResults meta kwRes vecRes kw sw,
        s.relevance_score = kw * s.keyword_score + sw * s.semantic_score ∧
        s.keyword_score = scoreOf kwRes s.note_id ∧
        s.semantic_score = clampScore (scoreOf vecRes s.note_id) ∧
        (s.note_id ∉ kwRes.map Prod.fst → s.keyword_score = 0) ∧
        (s.note_id ∉ vecRes.map Prod.fst → s.semantic_score = 0)) ∧
    retrieve (fun _ => ⟨0, "", "", "", none, none⟩)
        [(1, (8:ℚ)/10)] [(2, (9:ℚ)/10)] ((4:ℚ)/10) ((6:ℚ)/10) defaultTopK =
      [⟨2, 0, "", "", "", (54:ℚ)/100, 0, (9:ℚ)/10, none, none⟩,
       ⟨1, 0, "", "", "", (32:ℚ)/100, (8:ℚ)/10, 0, none, none⟩] := by
  constructor
  · intro meta kwRes vecRes kw sw s hs
    simp only [mergeResults, List.mem_map] at hs
    obtain ⟨id, _, rfl⟩ := hs
    refine ⟨rfl, rfl, rfl, fun h => ?_, fun h => ?_⟩
    · exact scoreOf_not_mem h
    · rw [show scoreOf vecRes id = 0 from scoreOf_not_mem h]
      simp [clampScore]
  · with_unfolding_all rfl

theorem combined_relevance_formula_witness :
    (⟨1, 0, "", "", "", (32:ℚ)/100, (8:ℚ)/10, 0, none, none⟩ : NoteSnippet).relevance_score =
      (4:ℚ)/10 * (⟨1, 0, "", "", "", (32:ℚ)/100, (8:ℚ)/10, 0, none,
        none⟩ : NoteSnippet).keyword_score +
      (6:ℚ)/10 * (⟨1, 0, "", "", "", (32:ℚ)/100, (8:ℚ)/10, 0, none,
        none⟩ : NoteSnippet).semantic_score := by
  have hmem : (⟨1, 0, "", "", "", (32:ℚ)/100, (8:ℚ)/10, 0, none, none⟩ : NoteSnippet) ∈
      mergeResults (fun _ => ⟨0, "", "", "", none, none⟩)
        [(1, (8:ℚ)/10)] [(2, (9:ℚ)/10)] ((4:ℚ)/10) ((6:ℚ)/10) := by
    have hE : mergeResults (fun _ => ⟨0, "", "", "", none, none⟩)
        [(1, (8:ℚ)/10)] [(2, (9:ℚ)/10)] ((4:ℚ)/10) ((6:ℚ)/10) =
        [⟨1, 0, "", "", "", (32:ℚ)/100, (8:ℚ)/10, 0, none, none⟩,
         ⟨2, 0, "", "", "", (54:ℚ)/100, 0, (9:ℚ)/10, none, none⟩] := by
      with_unfolding_all rfl
    rw [hE]
    exact List.mem_cons_self _ _
  exact (combined_relevance_formula.1 (fun _ => ⟨0, "", "", "", none, none⟩)
    [(1, (8:ℚ)/10)] [(2, (9:ℚ)/10)] ((4:ℚ)/10) ((6:ℚ)/10) _ hmem).1

/-- C5 counterexample: the declared `RetrievalResponse` carries only `query`,
`results` and `total_results`, so a degraded run (vector index unreachable) and
a healthy run (vector index reachable, empty result) produce identical
responses — the degraded mode is not observable by the caller through the
retrieval response. -/
theorem retrieval_degraded_unobservable :
    degradedMode (IndexStatus.ok [(1, (1:ℚ)/2)]) IndexStatus.unreachable = true ∧
    degradedMode (IndexStatus.ok [(1, (1:ℚ)/2)]) (IndexStatus.ok []) = false ∧
    retrieveWithAvailability (fun _ => ⟨0, "", "", "", none, none⟩) "q"
        (IndexStatus.ok [(1, (1:ℚ)/2)]) IndexStatus.unreachable ((4:ℚ)/10) ((6:ℚ)/10) 5 =
      retrieveWithAvailability (fun _ => ⟨0, "", "", "", none, none⟩) "q"
        (IndexStatus.ok [(1, (1:ℚ)/2)]) (IndexStatus.ok []) ((4:ℚ)/10) ((6:ℚ)/10) 5 :=
  ⟨rfl, rfl, rfl⟩

/-- C5 (amended): `retrieve` fails with a `RetrievalError` exactly when both
indexes are unreachable; with exactly one index unreachable it succeeds using
the other index's scores alone — but the declared `RetrievalResponse` has no
degraded-mode flag, so the degradation is not signalled in the response. -/
theorem retrieveWithAvailability_spec (meta : NoteId → NoteMeta) (query : String)
    (kw sw : ℚ) (k : Nat) :
    (retrieveWithAvailability meta query .unreachable .unreachable kw sw k =
      .error .bothIndexesUnreachable) ∧
    (∀ kwSide vecSide,
      (∃ e, retrieveWithAvailability meta query kwSide vecSide kw sw k = .error e) ↔
        kwSide = .unreachable ∧ vecSide = .unreachable) ∧
    (∀ ks, retrieveWithAvailability meta query (.ok ks) .unreachable kw sw k =
      .ok ⟨query, retrieve meta ks [] kw sw k, (retrieve meta ks [] kw sw k).length⟩) ∧
    (∀ vs, retrieveWithAvailability meta query .unreachable (.ok vs) kw sw k =
      .ok ⟨query, retrieve meta [] vs kw sw k, (retrieve meta [] vs kw sw k).length⟩) := by
  refine ⟨rfl, ?_, fun ks => rfl, fun vs => rfl⟩
  intro kwSide vecSide
  cases kwSide <;> cases vecSide <;> simp [retrieveWithAvailability]
  exact ⟨.bothIndexesUnreachable, trivial⟩

theorem retrieveWithAvailability_spec_witness :
    retrieveWithAvailability (fun _ => ⟨0, "", "", "", none, none⟩) "q"
      .unreachable .unreachable 1 1 5 = .error .bothIndexesUnreachable :=
  (retrieveWithAvailability_spec (fun _ => ⟨0, "", "", "", none, none⟩) "q" 1 1 5).1

/-- Modelled from the spec: one left-to-right pass over the answer text
collecting every bracketed integer marker `[n]` (README: "Citations extracted
from answer using regex"; spec §4.3).  The second argument is the scanner
state: `none` outside a bracket, `some acc` inside one, where `acc` is the
value of the digits read so far (`none` while no digit has been read). -/
def scanAux : List Char → Option (Option Nat) → List Nat
  | [], _ => []
  | c :: cs, none =>
    if c = '[' then scanAux cs (some none) else scanAux cs none
  | c :: cs, some acc =>
    if c.isDigit then scanAux cs (some (some (10 * acc.getD 0 + (c.toNat - 48))))
    else if c = ']' then
      match acc with
      | some n => n :: scanAux cs none
      | none => scanAux cs none
    else if c = '[' then scanAux cs (some none)
    else scanAux cs none

/-- All bracketed integer markers of the answer text, left to right. -/
def scanMarkers (answer : String) : List Nat := scanAux answer.data none

/-- Citation bound to a source snippet, as declared by the frontend `Citation`
interface: note id, player name, title, excerpt, reference number. -/
structure Citation where
  note_id : NoteId
  player_name : String
  title : String
  excerpt : String
  reference_number : Nat
deriving DecidableEq

/-- The Citation carrying reference number `n`, bound to snippet `s`. -/
def snippetCitation (n : Nat) (s : NoteSnippet) : Citation :=
  { note_id := s.note_id, player_name := s.player_name, title := s.title,
    excerpt := s.excerpt, reference_number := n }

/-- Modelled from the spec: the citation linker (spec §4.3; the backend
implementation is absent from the snapshot).  Scans the answer for bracketed
integer markers, keeps the in-range ones (1-based rank into the evidence
list), deduplicates keeping first appearances, and binds each reference to
the evidence snippet of that rank. -/
def extract (answer : String) (evidence : List NoteSnippet) : List Citation :=
  let markers := scanMarkers answer
  let valid := markers.filter fun n => decide (1 ≤ n) && decide (n ≤ evidence.length)
  (dedupFirst valid).filterMap fun n => (evidence.get? (n - 1)).map (snippetCitation n)

theorem map_ref_filterMap (evidence : List NoteSnippet) :
    ∀ refs : List Nat, (∀ n ∈ refs, n - 1 < evidence.length) →
      ((refs.filterMap fun n => (evidence.get? (n - 1)).map (snippetCitation n)).map
        (·.reference_number)) = refs := by
  intro refs
  induction refs with
  | nil => intro _; rfl
  | cons n rest ih =>
    intro hmem
    have hlt : n - 1 < evidence.length := hmem n (List.mem_cons_self n rest)
    simp only [List.filterMap_cons, List.get?_eq_get hlt, Option.map_some', List.map_cons]
    exact congrArg (n :: ·) (ih fun m hm => hmem m (List.mem_cons_of_mem n hm))

theorem extract_map_ref (answer : String) (evidence : List NoteSnippet) :
    (extract answer evidence).map (·.reference_number) =
      dedupFirst ((scanMarkers answer).filter
        fun n => decide (1 ≤ n) && decide (n ≤ evidence.length)) := by
  refine map_ref_filterMap evidence _ ?_
  intro n hn
  rw [mem_dedupFirst, List.mem_filter] at hn
  have := hn.2
  simp only [Bool.and_eq_true, decide_eq_true_eq] at this
  omega

theorem mem_extract {answer : String} {evidence : List NoteSnippet} {c : Citation}
    (hc : c ∈ extract answer evidence) :
    1 ≤ c.reference_number ∧ c.reference_number ≤ evidence.length ∧
    ∃ s, evidence.get? (c.reference_number - 1) = some s ∧
      c = snippetCitation c.reference_number s := by
  simp only [extract, List.mem_filterMap, Option.map_eq_some'] at hc
  obtain ⟨n, hn, s, hget, rfl⟩ := hc
  rw [mem_dedupFirst, List.mem_filter, Bool.and_eq_true, decide_eq_true_eq,
    decide_eq_true_eq] at hn
  exact ⟨hn.2.1, hn.2.2, s, hget, rfl⟩

/-- C3: `extract` scans the answer left-to-right for bracketed integer markers
and returns one Citation per distinct in-range integer, in order of first
appearance, with no duplicate reference numbers; every reference number lies
in `{1, …, evidence.length}` and is bound to the snippet of that rank, and
out-of-range markers are dropped (extraction is total, never an error). -/
theorem extract_citations_spec (answer : String) (evidence : List NoteSnippet) :
    (∀ c ∈ extract answer evidence,
      1 ≤ c.reference_number ∧ c.reference_number ≤ evidence.length ∧
      ∃ s, evidence.get? (c.reference_number - 1) = some s ∧
        c = snippetCitation c.reference_number s) ∧
    ((extract answer evidence).map (·.reference_number)).Nodup ∧
    (∀ n, 1 ≤ n → n ≤ evidence.length →
      (n ∈ scanMarkers answer ↔ n ∈ (extract answer evidence).map (·.reference_number))) ∧
    ((extract answer evidence).map (·.reference_number)).Pairwise
      (fun a b => (scanMarkers answer).indexOf a < (scanMarkers answer).indexOf b) := by
  refine ⟨?_, ?_, ?_, ?_⟩
  · exact fun c hc => mem_extract hc
  · rw [extract_map_ref]
    exact nodup_dedupFirst _
  · intro n h1 h2
    rw [extract_map_ref, mem_dedupFirst, List.mem_filter]
    constructor
    · intro h
      refine ⟨h, ?_⟩
      simp [h1, h2]
    · exact fun h => h.1
  · rw [extract_map_ref]
    refine (pairwise_indexOf_dedupFirst _).imp_of_mem ?_
    intro a b ha hb h
    rw [mem_dedupFirst] at ha hb
    exact indexOf_filter_lt ha hb h

theorem extract_citations_spec_witness :
    extract "Strong shooter [1][2]. Vocal leader [3]. Bogus [7]."
        [⟨11, 1, "A", "t1", "e1", 1, 1, 0, none, none⟩,
         ⟨12, 1, "A", "t2", "e2", 1, 0, 1, none, none⟩,
         ⟨13, 2, "B", "t3", "e3", 1, 1, 1, none, none⟩,
         ⟨14, 2, "B", "t4", "e4", 1, 0, 0, none, none⟩] =
      [⟨11, "A", "t1", "e1", 1⟩, ⟨12, "A", "t2", "e2", 2⟩, ⟨13, "B", "t3", "e3", 3⟩] ∧
    (∀ c ∈ extract "Strong shooter [1][2]. Vocal leader [3]. Bogus [7]."
        [⟨11, 1, "A", "t1", "e1", 1, 1, 0, none, none⟩,
         ⟨12, 1, "A", "t2", "e2", 1, 0, 1, none, none⟩,
         ⟨13, 2, "B", "t3", "e3", 1, 1, 1, none, none⟩,
         ⟨14, 2, "B", "t4", "e4", 1, 0, 0, none, none⟩],
      1 ≤ c.reference_number ∧ c.reference_number ≤ 4) := by
  constructor
  · with_unfolding_all rfl
  · intro c hc
    have h := (extract_citations_spec "Strong shooter [1][2]. Vocal leader [3]. Bogus [7]."
      [⟨11, 1, "A", "t1", "e1", 1, 1, 0, none, none⟩,
       ⟨12, 1, "A", "t2", "e2", 1, 0, 1, none, none⟩,
       ⟨13, 2, "B", "t3", "e3", 1, 1, 1, none, none⟩,
       ⟨14, 2, "B", "t4", "e4", 1, 0, 0, none, none⟩]).1 c hc
    exact ⟨h.1, h.2.1⟩

/-- Response shape of `POST /api/rag/generate`, as declared by the frontend
`GenerationResponse` interface (the optional `retrieved_notes` debug field is
omitted). -/
structure GenerationResponse where
  query : String
  answer : String
  citations : List Citation
  has_sufficient_information : Bool
  confidence : String
deriving DecidableEq

/-- Modelled from the spec: the confidence policy, computed from the extracted
citation set (README: High = 3+ notes, Medium = 1-2, Low = none). -/
def confidenceOf (citations : List Citation) : String :=
  if 3 ≤ citations.length then "high"
  else if 1 ≤ citations.length then "medium"
  else "low"

/-- Modelled from the spec: `generate` composes the external LLM capability's
answer text (a black box, passed here as `llmAnswer`, with `insufficient` its
explicit insufficiency signal) with citation extraction and the confidence
policy (spec §4.2; the backend implementation is absent from the snapshot). -/
def generate (query llmAnswer : String) (insufficient : Bool)
    (evidence : List NoteSnippet) : GenerationResponse :=
  let cs := extract llmAnswer evidence
  { query := query, answer := llmAnswer, citations := cs,
    has_sufficient_information := !cs.isEmpty && !insufficient,
    confidence := confidenceOf cs }

theorem extract_empty_evidence (answer : String) : extract answer [] = [] := by
  simp only [extract, List.length_nil]
  have h : ((scanMarkers answer).filter fun n => decide (1 ≤ n) && decide (n ≤ 0)) = [] := by
    rw [List.filter_eq_nil_iff]
    intro a _
    simp only [Bool.and_eq_true, decide_eq_true_eq, not_and]
    omega
  rw [h]
  rfl

/-- C2: the confidence label is computed from the extracted citation set —
`high` exactly when the answer cites at least 3 distinct notes, `medium`
exactly when it cites 1 or 2, `low` otherwise; distinct citations reference
distinct notes whenever the evidence notes are distinct; and on empty evidence
`generate` returns `has_sufficient_information = false` and
`confidence = "low"`. -/
theorem generate_confidence_policy (query llmAnswer : String) (insufficient : Bool)
    (evidence : List NoteSnippet) :
    ((generate query llmAnswer insufficient evidence).citations =
      extract llmAnswer evidence) ∧
    ((generate query llmAnswer insufficient evidence).confidence = "high" ↔
      3 ≤ (extract llmAnswer evidence).length) ∧
    ((generate query llmAnswer insufficient evidence).confidence = "medium" ↔
      (1 ≤ (extract llmAnswer evidence).length ∧ (extract llmAnswer evidence).length ≤ 2)) ∧
    ((generate query llmAnswer insufficient evidence).confidence = "low" ↔
      (extract llmAnswer evidence).length = 0) ∧
    ((evidence.map (·.note_id)).Nodup →
      ((extract llmAnswer evidence).map (·.note_id)).Nodup) ∧
    (evidence = [] →
      (generate query llmAnswer insufficient evidence).has_sufficient_information = false ∧
      (generate query llmAnswer insufficient evidence).confidence = "low") := by
  have hconf : (generate query llmAnswer insufficient evidence).confidence =
      confidenceOf (extract llmAnswer evidence) := rfl
  refine ⟨rfl, ?_, ?_, ?_, ?_, ?_⟩
  · rw [hconf]
    unfold confidenceOf
    by_cases h3 : 3 ≤ (extract llmAnswer evidence).length
    · simp [h3]
    · by_cases h1 : 1 ≤ (extract llmAnswer evidence).length <;> simp [h3, h1]
  · rw [hconf]
    unfold confidenceOf
    by_cases h3 : 3 ≤ (extract llmAnswer evidence).length
    · rw [if_pos h3]
      constructor
      · intro h
        exact absurd h (by decide)
      · omega
    · by_cases h1 : 1 ≤ (extract llmAnswer evidence).length
      · rw [if_neg h3, if_pos h1]
        simp only [true_iff]
        omega
      · rw [if_neg h3, if_neg h1]
        constructor
        · intro h
          exact absurd h (by decide)
        · omega
  · rw [hconf]
    unfold confidenceOf
    by_cases h3 : 3 ≤ (extract llmAnswer evidence).length
    · rw [if_pos h3]
      constructor
      · intro h
        exact absurd h (by decide)
      · omega
    · by_cases h1 : 1 ≤ (extract llmAnswer evidence).length
      · rw [if_neg h3, if_pos h1]
        constructor
        · intro h
          exact absurd h (by decide)
        · omega
      · rw [if_neg h3, if_neg h1]
        simp only [true_iff]
        omega
  · intro hnodup
    have hrefs : ((extract llmAnswer evidence).map (·.reference_number)).Nodup := by
      rw [extract_map_ref]
      exact nodup_dedupFirst _
    have hrefs' : (extract llmAnswer evidence).Pairwise
        (fun a b => a.reference_number ≠ b.reference_number) :=
      List.pairwise_map.mp hrefs
    refine List.pairwise_map.mpr (hrefs'.imp_of_mem ?_)
    intro a b ha hb hne heq
    obtain ⟨h1a, _, sa, hgeta, hsa⟩ := mem_extract ha
    obtain ⟨h1b, _, sb, hgetb, hsb⟩ := mem_extract hb
    rw [List.get?_eq_some] at hgeta hgetb
    obtain ⟨hia, hga⟩ := hgeta
    obtain ⟨hib, hgb⟩ := hgetb
    have hna : a.note_id = sa.note_id := by rw [hsa]; rfl
    have hnb : b.note_id = sb.note_id := by rw [hsb]; rfl
    have hpw := List.pairwise_iff_get.mp (List.pairwise_map.mp hnodup)
    rcases Nat.lt_trichotomy (a.reference_number - 1) (b.reference_number - 1) with
      hlt | heqi | hgt
    · exact hpw ⟨a.reference_number - 1, hia⟩ ⟨b.reference_number - 1, hib⟩
        (Fin.mk_lt_mk.mpr hlt) (by rw [hga, hgb, ← hna, ← hnb]; exact heq)
    · exact absurd (show a.reference_number = b.reference_number by omega) hne
    · exact hpw ⟨b.reference_number - 1, hib⟩ ⟨a.reference_number - 1, hia⟩
        (Fin.mk_lt_mk.mpr hgt) (by rw [hgb, hga, ← hnb, ← hna]; exact heq.symm)
  · rintro rfl
    have h0 : extract llmAnswer [] = [] := extract_empty_evidence llmAnswer
    constructor
    · show (!(extract llmAnswer []).isEmpty && !insufficient) = false
      rw [h0]
      rfl
    · rw [hconf, h0]
      rfl

theorem generate_confidence_policy_witness :
    ((List.map (fun s => s.note_id)
        ([] : List NoteSnippet)).Nodup →
      ((extract "no evidence [1]" []).map (·.note_id)).Nodup) ∧
    (generate "q" "no evidence [1]" false []).has_sufficient_information = false ∧
    (generate "q" "no evidence [1]" false []).confidence = "low" := by
  have h := generate_confidence_policy "q" "no evidence [1]" false []
  exact ⟨h.2.2.2.2.1, (h.2.2.2.2.2 rfl).1, (h.2.2.2.2.2 rfl).2⟩

/-- Step types of an agent Run (data model §3 / `RunStep.step_type`). -/
inductive StepType where
  | thinking
  | tool_call
  | observation
  | final
deriving DecidableEq

/-- Status of one step. -/
inductive StepStatus where
  | running
  | completed
  | failed
deriving DecidableEq

/-- One persisted step of a Run (shape of `RunStep` in `api/assistant.ts`,
with the step type and status as closed enumerations). -/
structure AgentStep where
  step_number : Nat
  step_type : StepType
  description : String
  tool_name : Option String
  tool_input : Option String
  tool_output : Option String
  status : StepStatus
deriving DecidableEq

/-- Status of a Run (data model §3): `pending → running → completed | failed`. -/
inductive RunStatus where
  | pending
  | running
  | completed
  | failed
deriving DecidableEq

/-- Errors that terminate a Run (spec §7). -/
inductive AgentError where
  | boundedExecutionExceeded
  | timeoutError (msg : String)
  | generationUnavailable (msg : String)
deriving DecidableEq

/-- One decision by the LLM policy each round: call a tool, finish with a
final answer, or abort (LLM failure, cancellation or timeout of the outer
request). -/
inductive Decision where
  | callTool (name input : String)
  | finish (answer : String)
  | abort (e : AgentError)

/-- Hard iteration bound of the agent loop (test_assistant.md: "Bounded
execution — Max 10 iterations to prevent infinite loops"). -/
def maxIterations : Nat := 10

/-- The `tool_call` step appended for round `k`. -/
def toolCallStep (k : Nat) (name input : String) : AgentStep :=
  ⟨k, .tool_call, "Calling " ++ name, some name, some input, none, .completed⟩

/-- The `observation` step recording a tool's result, `failed` when the tool
raised (spec §4.4: a raising tool invocation is recorded as a failed step). -/
def observationStep (k : Nat) (name : String) (result : Except String String) : AgentStep :=
  match result with
  | .ok out => ⟨k, .observation, "Tool result", some name, none, some out, .completed⟩
  | .error e => ⟨k, .observation, e, some name, none, none, .failed⟩

/-- Final state of a Run produced by the loop. -/
structure RunState where
  status : RunStatus
  steps : List AgentStep
  assistant_response : Option String
  error_message : Option AgentError
deriving DecidableEq

/-- Modelled from the spec: the bounded agent loop (spec §4.4; the backend
implementation is absent from the snapshot).  While fuel remains, the policy
(the black-box LLM decision given the steps so far) either finishes the Run
(`completed`, with a `final` step), aborts it (`failed`), or requests a tool
call, which appends a `tool_call` and an `observation` step and loops.
Exhausting the fuel forces `failed` with the bounded-execution error. -/
def loopAux (tools : String → String → Except String String)
    (policy : List AgentStep → Decision) : Nat → List AgentStep → RunState
  | 0, steps => ⟨.failed, steps, none, some .boundedExecutionExceeded⟩
  | fuel + 1, steps =>
    match policy steps with
    | .finish answer =>
      ⟨.completed,
        steps ++ [⟨steps.length + 1, .final, answer, none, none, none, .completed⟩],
        some answer, none⟩
    | .abort e => ⟨.failed, steps, none, some e⟩
    | .callTool name input =>
      loopAux tools policy fuel
        (steps ++ [toolCallStep (steps.length + 1) name input,
                   observationStep (steps.length + 2) name (tools name input)])

/-- Modelled from the spec: run the agent loop for one user message with the
given iteration bound, starting from an empty step list. -/
def runAgent (tools : String → String → Except String String)
    (policy : List AgentStep → Decision) (bound : Nat) : RunState :=
  loopAux tools policy bound []

/-- Number of `tool_call` steps of a step list. -/
def countToolCalls (steps : List AgentStep) : Nat :=
  (steps.filter fun s => decide (s.step_type = .tool_call)).length

theorem countToolCalls_append_round (steps : List AgentStep) (k k2 : Nat)
    (name input : String) (result : Except String String) :
    countToolCalls (steps ++ [toolCallStep k name input, observationStep k2 name result]) =
      countToolCalls steps + 1 := by
  unfold countToolCalls toolCallStep observationStep
  rw [List.filter_append, List.length_append]
  cases result <;> simp

theorem countToolCalls_loopAux (tools : String → String → Except String String)
    (policy : List AgentStep → Decision) (fuel : Nat) (steps : List AgentStep) :
    countToolCalls (loopAux tools policy fuel steps).steps ≤ countToolCalls steps + fuel := by
  induction fuel generalizing steps with
  | zero => simp [loopAux]
  | succ n ih =>
    rw [loopAux]
    cases hpol : policy steps with
    | finish answer =>
      simp only [countToolCalls, List.filter_append, List.length_append]
      have h0 : ∀ s : AgentStep, s.step_type = StepType.final →
          (List.filter (fun t => decide (t.step_type = StepType.tool_call)) [s]).length = 0 := by
        intro s hs
        simp [List.filter_cons, hs]
      rw [h0 _ rfl]
      omega
    | abort e => simp [countToolCalls]
    | callTool name input =>
      calc countToolCalls (loopAux tools policy n
              (steps ++ [toolCallStep (steps.length + 1) name input,
                observationStep (steps.length + 2) name (tools name input)])).steps
          ≤ countToolCalls (steps ++ [toolCallStep (steps.length + 1) name input,
              observationStep (steps.length + 2) name (tools name input)]) + n := ih _
        _ = countToolCalls steps + 1 + n := by rw [countToolCalls_append_round]
        _ ≤ countToolCalls steps + (n + 1) := by omega

theorem loopAux_always_call (tools : String → String → Except String String)
    (policy : List AgentStep → Decision)
    (hpol : ∀ h, ∃ name input, policy h = .callTool name input) :
    ∀ (fuel : Nat) (steps : List AgentStep),
      (loopAux tools policy fuel steps).status = .failed ∧
      (loopAux tools policy fuel steps).error_message = some .boundedExecutionExceeded ∧
      countToolCalls (loopAux tools policy fuel steps).steps = countToolCalls steps + fuel := by
  intro fuel
  induction fuel with
  | zero => intro steps; exact ⟨rfl, rfl, by simp [loopAux]⟩
  | succ n ih =>
    intro steps
    obtain ⟨name, input, hp⟩ := hpol steps
    rw [loopAux, hp]
    refine ⟨(ih _).1, (ih _).2.1, ?_⟩
    rw [(ih _).2.2, countToolCalls_append_round]
    omega

/-- C4: for every policy and tool behaviour, the number of `tool_call` steps
of a Run never exceeds the configured iteration bound (default 10), and a
policy that keeps requesting tool calls forces the Run to `failed` with the
bounded-execution error. -/
theorem agent_tool_calls_bounded (tools : String → String → Except String String)
    (policy : List AgentStep → Decision) (bound : Nat) :
    countToolCalls (runAgent tools policy bound).steps ≤ bound ∧
    maxIterations = 10 ∧
    ((∀ h, ∃ name input, policy h = .callTool name input) →
      (runAgent tools policy bound).status = .failed ∧
      (runAgent tools policy bound).error_message = some .boundedExecutionExceeded ∧
      countToolCalls (runAgent tools policy bound).steps = bound) := by
  refine ⟨?_, rfl, ?_⟩
  · have := countToolCalls_loopAux tools policy bound []
    simpa [runAgent, countToolCalls] using this
  · intro hpol
    obtain ⟨h1, h2, h3⟩ := loopAux_always_call tools policy hpol bound []
    exact ⟨h1, h2, by simpa [countToolCalls] using h3⟩

theorem agent_tool_calls_bounded_witness :
    countToolCalls (runAgent (fun _ _ => .ok "[]")
      (fun _ => .callTool "search_players" "\x7b\x7d") maxIterations).steps ≤ maxIterations ∧
    (runAgent (fun _ _ => .ok "[]")
      (fun _ => .callTool "search_players" "\x7b\x7d") maxIterations).status = .failed ∧
    (runAgent (fun _ _ => .ok "[]")
      (fun _ => .callTool "search_players" "\x7b\x7d") maxIterations).error_message =
      some .boundedExecutionExceeded := by
  have h := agent_tool_calls_bounded (fun _ _ => .ok "[]")
    (fun _ => .callTool "search_players" "\x7b\x7d") maxIterations
  have h2 := h.2.2 fun _ => ⟨"search_players", "\x7b\x7d", rfl⟩
  exact ⟨h.1, h2.1, h2.2.1⟩

/-- Transitions of the Run status state machine (spec §4.4):
`pending → running` on accepting the user message, then `running → completed`
or `running → failed`. -/
inductive StatusTransition : RunStatus → RunStatus → Prop where
  | accept : StatusTransition .pending .running
  | complete : StatusTransition .running .completed
  | fail : StatusTransition .running .failed

theorem loopAux_terminal (tools : String → String → Except String String)
    (policy : List AgentStep → Decision) (fuel : Nat) (steps : List AgentStep) :
    (loopAux tools policy fuel steps).status = .completed ∨
    (loopAux tools policy fuel steps).status = .failed := by
  induction fuel generalizing steps with
  | zero => exact Or.inr rfl
  | succ n ih =>
    rw [loopAux]
    cases policy steps with
    | finish answer => exact Or.inl rfl
    | abort e => exact Or.inr rfl
    | callTool name input => exact ih _

/-- C7: every Run follows the status state machine
`pending → running → (completed | failed)` and always terminates: for every
policy (including ones that abort on timeout or keep requesting tool calls
past the bound) the agent loop yields a terminal status, never leaving the
Run in `running`. -/
theorem run_terminates_state_machine (tools : String → String → Except String String)
    (policy : List AgentStep → Decision) (bound : Nat) :
    ((runAgent tools policy bound).status = .completed ∨
      (runAgent tools policy bound).status = .failed) ∧
    List.Chain' StatusTransition
      [RunStatus.pending, RunStatus.running, (runAgent tools policy bound).status] ∧
    (runAgent tools policy bound).status ≠ .running := by
  have hterm := loopAux_terminal tools policy bound []
  refine ⟨hterm, ?_, ?_⟩
  · rcases hterm with h | h <;> rw [show (runAgent tools policy bound).status =
      (loopAux tools policy bound []).status from rfl, h]
    · exact List.chain'_cons.mpr ⟨.accept, List.chain'_cons.mpr ⟨.complete, List.chain'_singleton _⟩⟩
    · exact List.chain'_cons.mpr ⟨.accept, List.chain'_cons.mpr ⟨.fail, List.chain'_singleton _⟩⟩
  · rcases hterm with h | h <;> rw [show (runAgent tools policy bound).status =
      (loopAux tools policy bound []).status from rfl, h] <;> simp

theorem run_terminates_state_machine_witness :
    ((runAgent (fun _ _ => .ok "[]") (fun _ => .finish "done") maxIterations).status =
        .completed ∨
      (runAgent (fun _ _ => .ok "[]") (fun _ => .finish "done") maxIterations).status =
        .failed) ∧
    List.Chain' StatusTransition [RunStatus.pending, RunStatus.running,
      (runAgent (fun _ _ => .ok "[]") (fun _ => .finish "done") maxIterations).status] :=
  ⟨(run_terminates_state_machine (fun _ _ => .ok "[]") (fun _ => .finish "done")
      maxIterations).1,
    (run_terminates_state_machine (fun _ _ => .ok "[]") (fun _ => .finish "done")
      maxIterations).2.1⟩

/-- A stored note (README: Notes table — id, player_id, title, content, tags,
game_date, is_important). -/
structure NoteRecord where
  id : NoteId
  player_id : Nat
  title : String
  content : String
  tags : Option String
  game_date : Option String
  is_important : Bool
deriving DecidableEq

/-- A note update request: `none` means the field is not touched (the update
payload has all-optional fields). -/
structure NoteUpdate where
  title : Option String
  content : Option String
  tags : Option (Option String)
  game_date : Option (Option String)
  is_important : Option Bool
deriving DecidableEq

/-- Apply an update payload to a stored note. -/
def applyUpdate (n : NoteRecord) (u : NoteUpdate) : NoteRecord :=
  { n with
    title := u.title.getD n.title
    content := u.content.getD n.content
    tags := u.tags.getD n.tags
    game_date := u.game_date.getD n.game_date
    is_important := u.is_important.getD n.is_important }

/-- The note's derived searchable text: title, content and tags (spec §3:
the searchable representation derived from title, content, tags). -/
def searchableText (n : NoteRecord) : String :=
  n.title ++ " " ++ n.content ++ (match n.tags with
    | some t => " " ++ t
    | none => "")

/-- An embedding vector (fixed-dimension numeric vector, black box here). -/
abbrev Embedding := List Int

/-- The vector index: note id to stored vector. -/
abbrev VectorIndex := List (NoteId × Embedding)

/-- Upsert a point into the vector index. -/
def upsertVector : VectorIndex → NoteId → Embedding → VectorIndex
  | [], id, v => [(id, v)]
  | p :: ps, id, v => if p.1 = id then (id, v) :: ps else p :: upsertVector ps id v

/-- Delete a point from the vector index. -/
def deleteVector (idx : VectorIndex) (id : NoteId) : VectorIndex :=
  idx.filter fun p => decide (p.1 ≠ id)

/-- Look up the stored vector of a note. -/
def lookupVector : VectorIndex → NoteId → Option Embedding
  | [], _ => none
  | p :: ps, id => if p.1 = id then some p.2 else lookupVector ps id

/-- Whether an update payload touches any of title, content or tags — the
fields the searchable representation is derived from. -/
def touchesSearchable (u : NoteUpdate) : Bool :=
  u.title.isSome || u.content.isSome || u.tags.isSome

/-- Modelled from the spec: vector-index synchronization on note creation
(QDRANT_MIGRATION.md "Data Synchronization"; the backend crud code is absent
from the snapshot) — the derived text is embedded and stored. -/
def syncCreate (embed : String → Embedding) (idx : VectorIndex) (n : NoteRecord) :
    VectorIndex :=
  upsertVector idx n.id (embed (searchableText n))

/-- Modelled from the spec: synchronization on note update — re-embed and
upsert exactly when the update touches title, content or tags. -/
def syncUpdate (embed : String → Embedding) (idx : VectorIndex) (n : NoteRecord)
    (u : NoteUpdate) : VectorIndex :=
  if touchesSearchable u then
    upsertVector idx n.id (embed (searchableText (applyUpdate n u)))
  else idx

/-- Modelled from the spec: synchronization on note deletion — the vector is
removed. -/
def syncDeleteNote (idx : VectorIndex) (id : NoteId) : VectorIndex :=
  deleteVector idx id

/-- Modelled from the spec: synchronization on player deletion — the vectors
of all of the player's notes are removed. -/
def syncDeletePlayer (idx : VectorIndex) (noteIds : List NoteId) : VectorIndex :=
  noteIds.foldl deleteVector idx

theorem lookupVector_upsert (idx : VectorIndex) (id : NoteId) (v : Embedding) :
    lookupVector (upsertVector idx id v) id = some v := by
  induction idx with
  | nil => simp [upsertVector, lookupVector]
  | cons p ps ih =>
    by_cases hp : p.1 = id
    · simp [upsertVector, hp, lookupVector]
    · simp [upsertVector, hp, lookupVector, ih]

theorem lookupVector_delete (idx : VectorIndex) (id : NoteId) :
    lookupVector (deleteVector idx id) id = none := by
  induction idx with
  | nil => rfl
  | cons p ps ih =>
    by_cases hp : p.1 = id
    · simpa [deleteVector, hp, List.filter_cons] using ih
    · simpa [deleteVector, hp, List.filter_cons, lookupVector] using ih

theorem lookupVector_delete_other (idx : VectorIndex) (id id2 : NoteId)
    (h : lookupVector idx id = none) : lookupVector (deleteVector idx id2) id = none := by
  induction idx with
  | nil => rfl
  | cons p ps ih =>
    by_cases hp : p.1 = id
    · simp [lookupVector, hp] at h
    · simp only [lookupVector, if_neg hp] at h
      by_cases hp2 : p.1 = id2
      · simpa [deleteVector, hp2, List.filter_cons] using ih h
      · simpa [deleteVector, hp2, List.filter_cons, lookupVector, hp] using ih h

theorem lookupVector_foldl_delete_none (noteIds : List NoteId) (idx : VectorIndex)
    (id : NoteId) (h : lookupVector idx id = none) :
    lookupVector (noteIds.foldl deleteVector idx) id = none := by
  induction noteIds generalizing idx with
  | nil => exact h
  | cons a rest ih => exact ih _ (lookupVector_delete_other idx id a h)

theorem lookupVector_deletePlayer (noteIds : List NoteId) (idx : VectorIndex)
    (id : NoteId) (h : id ∈ noteIds) :
    lookupVector (syncDeletePlayer idx noteIds) id = none := by
  induction noteIds generalizing idx with
  | nil => simp at h
  | cons a rest ih =>
    rcases List.mem_cons.mp h with rfl | hmem
    · exact lookupVector_foldl_delete_none rest _ id (lookupVector_delete idx id)
    · exact ih _ hmem

/-- C8: the vector index is kept in sync with the notes — creation embeds the
derived text and stores it; an update touching title, content or tags
re-embeds the updated derived text and updates the stored vector; an update
touching none of those leaves the index untouched and the derived text
unchanged; deleting a note removes its vector, and deleting a player removes
the vectors of all the player's notes. -/
theorem note_sync_reembedding (embed : String → Embedding) :
    (∀ (idx : VectorIndex) (n : NoteRecord),
      lookupVector (syncCreate embed idx n) n.id = some (embed (searchableText n))) ∧
    (∀ (idx : VectorIndex) (n : NoteRecord) (u : NoteUpdate), touchesSearchable u = true →
      lookupVector (syncUpdate embed idx n u) n.id =
        some (embed (searchableText (applyUpdate n u)))) ∧
    (∀ (idx : VectorIndex) (n : NoteRecord) (u : NoteUpdate), touchesSearchable u = false →
      syncUpdate embed idx n u = idx ∧
      searchableText (applyUpdate n u) = searchableText n) ∧
    (∀ (idx : VectorIndex) (id : NoteId), lookupVector (syncDeleteNote idx id) id = none) ∧
    (∀ (idx : VectorIndex) (noteIds : List NoteId) (id : NoteId), id ∈ noteIds →
      lookupVector (syncDeletePlayer idx noteIds) id = none) := by
  refine ⟨?_, ?_, ?_, ?_, ?_⟩
  · intro idx n
    exact lookupVector_upsert idx n.id _
  · intro idx n u hu
    rw [syncUpdate, if_pos hu]
    exact lookupVector_upsert idx n.id _
  · intro idx n u hu
    have h := hu
    simp only [touchesSearchable, Bool.or_eq_false_iff] at h
    obtain ⟨⟨h1, h2⟩, h3⟩ := h
    have ht : u.title = none := by
      cases hx : u.title with
      | none => rfl
      | some v => rw [hx] at h1; simp at h1
    have hc : u.content = none := by
      cases hx : u.content with
      | none => rfl
      | some v => rw [hx] at h2; simp at h2
    have hg : u.tags = none := by
      cases hx : u.tags with
      | none => rfl
      | some v => rw [hx] at h3; simp at h3
    constructor
    · rw [syncUpdate, if_neg (by rw [hu]; exact Bool.false_ne_true)]
    · simp [searchableText, applyUpdate, ht, hc, hg]
  · intro idx id
    exact lookupVector_delete idx id
  · intro idx noteIds id h
    exact lookupVector_deletePlayer noteIds idx id h

theorem note_sync_reembedding_witness :
    lookupVector (syncUpdate (fun s => [(s.length : Int)]) []
        ⟨1, 2, "t", "c", none, none, false⟩ ⟨some "t2", none, none, none, none⟩) 1 =
      some ((fun s => [(s.length : Int)])
        (searchableText (applyUpdate ⟨1, 2, "t", "c", none, none, false⟩
          ⟨some "t2", none, none, none, none⟩))) ∧
    syncUpdate (fun s => [(s.length : Int)]) [(1, [3])]
        ⟨1, 2, "t", "c", none, none, false⟩ ⟨none, none, none, some (some "2024-01-01"), some true⟩ =
      [(1, [3])] ∧
    lookupVector (syncDeletePlayer [(1, [3]), (2, [4])] [1, 2]) 2 = none := by
  refine ⟨?_, ?_, ?_⟩
  · exact (note_sync_reembedding (fun s => [(s.length : Int)])).2.1 []
      ⟨1, 2, "t", "c", none, none, false⟩ ⟨some "t2", none, none, none, none⟩ rfl
  · exact ((note_sync_reembedding (fun s => [(s.length : Int)])).2.2.1 [(1, [3])]
      ⟨1, 2, "t", "c", none, none, false⟩
      ⟨none, none, none, some (some "2024-01-01"), some true⟩ rfl).1
  · exact (note_sync_reembedding (fun s => [(s.length : Int)])).2.2.2.2
      [(1, [3]), (2, [4])] [1, 2] 2 (by simp)

/-- The players route pattern of the frontend router (App.tsx:
`/players/:id` renders the player detail page, whose data is fetched by
`playersApi.getById`). -/
def playersRoutePrefix : String := "/players/"

/-- CitationCard.tsx: the source card's player-name link target is
`/players/${citation.note_id}`. -/
def citationPlayerLink (c : Citation) : String :=
  playersRoutePrefix ++ toString c.note_id

/-- C9: the `Citation` record exposed at the public interface carries exactly
the fields note_id, player_name, title, excerpt and reference_number — no
player identifier — and the UI source card's player-name link navigates to
`/players/{note_id}`: the link is fully determined by the citation's note
identifier, which stands in the position of a player identifier. -/
theorem citation_link_uses_note_id (c : Citation) :
    citationPlayerLink c = "/players/" ++ toString c.note_id ∧
    c = ⟨c.note_id, c.player_name, c.title, c.excerpt, c.reference_number⟩ ∧
    (∀ d : Citation, d.note_id = c.note_id → citationPlayerLink d = citationPlayerLink c) := by
  refine ⟨rfl, rfl, ?_⟩
  intro d hd
  rw [citationPlayerLink, citationPlayerLink, hd]

theorem citation_link_uses_note_id_witness :
    citationPlayerLink ⟨42, "Stephen Curry", "Shooting", "…", 1⟩ = "/players/42" ∧
    citationPlayerLink ⟨42, "Someone Else", "Defense", "…", 2⟩ =
      citationPlayerLink ⟨42, "Stephen Curry", "Shooting", "…", 1⟩ := by
  constructor
  · exact (citation_link_uses_note_id ⟨42, "Stephen Curry", "Shooting", "…", 1⟩).1
  · exact (citation_link_uses_note_id ⟨42, "Stephen Curry", "Shooting", "…", 1⟩).2.2
      ⟨42, "Someone Else", "Defense", "…", 2⟩ rfl

/-- One step event as streamed to the chat panel (shape of `RunStep` in
`api/assistant.ts`: id, step_number, step_type, description, optional tool
name/input/output, status, optional error message, created_at). -/
structure RunStep where
  id : Nat
  step_number : Nat
  step_type : String
  description : String
  tool_name : Option String
  tool_input : Option String
  tool_output : Option String
  status : String
  error_message : Option String
  created_at : String
deriving DecidableEq

/-- ChatPanel.tsx, `handleStreamEvent` case `step`: if the current step list
has an entry with the incoming step's id, every such entry is replaced by the
incoming step (in place); otherwise the step is appended at the end. -/
def upsertStep (prev : List RunStep) (step : RunStep) : List RunStep :=
  if prev.any fun s => decide (s.id = step.id) then
    prev.map fun s => if s.id = step.id then step else s
  else prev ++ [step]

/-- The step list maintained by the chat panel after a sequence of step
events, starting from the empty list. -/
def processEvents (events : List RunStep) : List RunStep :=
  events.foldl upsertStep []

theorem upsertStep_ids_of_mem (prev : List RunStep) (step : RunStep)
    (h : ∃ s ∈ prev, s.id = step.id) :
    (upsertStep prev step).map (·.id) = prev.map (·.id) := by
  rw [upsertStep, if_pos]
  · rw [List.map_map]
    refine List.map_congr_left ?_
    intro s _
    by_cases hs : s.id = step.id
    · simp [hs]
    · simp [hs]
  · obtain ⟨s, hs, hid⟩ := h
    exact List.any_eq_true.mpr ⟨s, hs, by simpa using hid⟩

theorem upsertStep_ids_of_not_mem (prev : List RunStep) (step : RunStep)
    (h : ∀ s ∈ prev, s.id ≠ step.id) :
    upsertStep prev step = prev ++ [step] := by
  rw [upsertStep, if_neg]
  intro hany
  obtain ⟨s, hs, hid⟩ := List.any_eq_true.mp hany
  exact h s hs (by simpa using hid)

theorem processEvents_nodup_aux (events : List RunStep) (acc : List RunStep)
    (hacc : (acc.map (·.id)).Nodup) :
    ((events.foldl upsertStep acc).map (·.id)).Nodup := by
  induction events generalizing acc with
  | nil => exact hacc
  | cons e rest ih =>
    rw [List.foldl_cons]
    refine ih (upsertStep acc e) ?_
    by_cases hmem : ∃ s ∈ acc, s.id = e.id
    · rw [upsertStep_ids_of_mem acc e hmem]
      exact hacc
    · push_neg at hmem
      rw [upsertStep_ids_of_not_mem acc e hmem]
      rw [List.map_append]
      simp only [List.map_cons, List.map_nil]
      rw [List.nodup_append]
      refine ⟨hacc, List.nodup_singleton _, ?_⟩
      intro x hx
      simp only [List.mem_singleton]
      intro hxe
      obtain ⟨s, hs, hsx⟩ := List.mem_map.mp hx
      exact hmem s hs (by rw [hsx, hxe])

/-- C10: the chat panel's step list keeps at most one entry per step id — an
incoming step event whose id matches an existing entry replaces that entry in
place, preserving its position (and the id sequence), and an unmatched step is
appended — so steps are displayed in order of first appearance with no
duplicates. -/
theorem chat_steps_upsert_invariant :
    (∀ events : List RunStep, ((processEvents events).map (·.id)).Nodup) ∧
    (∀ (prev : List RunStep) (step : RunStep) (i : Nat) (hi : i < prev.length),
      (prev.map (·.id)).Nodup → (prev.get ⟨i, hi⟩).id = step.id →
      upsertStep prev step = prev.set i step) ∧
    (∀ (prev : List RunStep) (step : RunStep),
      (∃ s ∈ prev, s.id = step.id) →
      (upsertStep prev step).map (·.id) = prev.map (·.id)) ∧
    (∀ (prev : List RunStep) (step : RunStep),
      (∀ s ∈ prev, s.id ≠ step.id) → upsertStep prev step = prev ++ [step]) := by
  refine ⟨?_, ?_, upsertStep_ids_of_mem, upsertStep_ids_of_not_mem⟩
  · intro events
    exact processEvents_nodup_aux events [] (by simp)
  · intro prev step i hi hnodup hget
    induction prev generalizing i with
    | nil => simp at hi
    | cons p ps ih =>
      cases i with
      | zero =>
        simp only [List.get] at hget
        rw [upsertStep, if_pos (List.any_eq_true.mpr
          ⟨p, List.mem_cons_self p ps, by simpa using hget⟩)]
        simp only [List.map_cons, if_pos hget, List.set]
        congr 1
        have hp : p.id ∉ ps.map (·.id) := by
          rw [List.map_cons, List.nodup_cons] at hnodup
          exact hnodup.1
        have hmapid : List.map (fun s => if s.id = step.id then step else s) ps =
            List.map id ps := by
          refine List.map_congr_left ?_
          intro s hs
          have hsne : s.id ≠ step.id := by
            intro hsid
            apply hp
            rw [hget, ← hsid]
            exact List.mem_map.mpr ⟨s, hs, rfl⟩
          simp [hsne]
        rw [hmapid, List.map_id]
      | succ j =>
        have hj : j < ps.length := by simpa using hi
        have hnodup' : (ps.map (·.id)).Nodup := by
          rw [List.map_cons, List.nodup_cons] at hnodup
          exact hnodup.2
        have hget' : (ps.get ⟨j, hj⟩).id = step.id := hget
        have hgmem : ps.get ⟨j, hj⟩ ∈ ps := List.get_mem ps j hj
        have hrec := ih j hj hnodup' hget'
        have hpne : p.id ≠ step.id := by
          rw [List.map_cons, List.nodup_cons] at hnodup
          intro hcontra
          apply hnodup.1
          rw [hcontra, ← hget']
          exact List.mem_map.mpr ⟨ps.get ⟨j, hj⟩, hgmem, rfl⟩
        rw [upsertStep, if_pos (List.any_eq_true.mpr
          ⟨ps.get ⟨j, hj⟩, List.mem_cons_of_mem p hgmem, by simpa using hget'⟩)]
        simp only [List.map_cons, if_neg hpne, List.set]
        congr 1
        rw [upsertStep, if_pos (List.any_eq_true.mpr
          ⟨ps.get ⟨j, hj⟩, hgmem, by simpa using hget'⟩)] at hrec
        exact hrec

theorem chat_steps_upsert_invariant_witness :
    ((processEvents
      [⟨1, 1, "thinking", "a", none, none, none, "running", none, "t0"⟩,
       ⟨2, 2, "tool_call", "b", some "search_players", none, none, "running", none, "t1"⟩,
       ⟨1, 1, "thinking", "a", none, none, none, "completed", none, "t0"⟩]).map (·.id)).Nodup ∧
    upsertStep
      [⟨1, 1, "thinking", "a", none, none, none, "running", none, "t0"⟩,
       ⟨2, 2, "tool_call", "b", some "search_players", none, none, "running", none, "t1"⟩]
      ⟨1, 1, "thinking", "a", none, none, none, "completed", none, "t0"⟩ =
      [⟨1, 1, "thinking", "a", none, none, none, "completed", none, "t0"⟩,
       ⟨2, 2, "tool_call", "b", some "search_players", none, none, "running", none, "t1"⟩] ∧
    upsertStep [⟨1, 1, "thinking", "a", none, none, none, "running", none, "t0"⟩]
      ⟨2, 2, "tool_call", "b", some "search_players", none, none, "running", none, "t1"⟩ =
      [⟨1, 1, "thinking", "a", none, none, none, "running", none, "t0"⟩,
       ⟨2, 2, "tool_call", "b", some "search_players", none, none, "running", none, "t1"⟩] := by
  refine ⟨chat_steps_upsert_invariant.1 _, ?_, ?_⟩
  · have h := chat_steps_upsert_invariant.2.1
      [⟨1, 1, "thinking", "a", none, none, none, "running", none, "t0"⟩,
       ⟨2, 2, "tool_call", "b", some "search_players", none, none, "running", none, "t1"⟩]
      ⟨1, 1, "thinking", "a", none, none, none, "completed", none, "t0"⟩
      0 (by simp) (by simp) rfl
    simpa using h
  · exact chat_steps_upsert_invariant.2.2.2
      [⟨1, 1, "thinking", "a", none, none, none, "running", none, "t0"⟩]
      ⟨2, 2, "tool_call", "b", some "search_players", none, none, "running", none, "t1"⟩
      (by intro s hs; simp at hs; rw [hs]; decide)

end ScoutOps
